import Mathlib

/-!
Verification development for the dispatch-thunk IR generation component
(`lib/IRGen/GenThunk.cpp`): a shallow embedding of the thunk registry, the
argument-marshaling paths, target resolution, the emission driver, and the
resilient method-lookup function, together with proofs of the spec's
testable properties.
-/

namespace GenThunk

/-- A machine-level word: pointer, function address, or scalar component. -/
abbrev Value := Nat

/-! ## Thunk registry (`IRGenModule::getAddrOfDispatchThunk` /
`IRGenModule::emitDispatchThunk`)

`GlobalFuncs` is modelled as an association list from link entities (keyed by
the method reference's identity) to function entries.  A function entry
records its symbol identity, whether a body has been attached
(`!isDeclaration()`), and whether `updateLinkageForDefinition` has been
applied. -/

structure FuncEntry where
  sym : Nat
  hasBody : Bool
  defLinkage : Bool
  deriving DecidableEq, Repr

structure ModuleState where
  globalFuncs : List (Nat × FuncEntry)
  nextSym : Nat
  deriving DecidableEq, Repr

def initState : ModuleState := ⟨[], 0⟩

def lookupFunc (s : ModuleState) (e : Nat) : Option FuncEntry :=
  (s.globalFuncs.find? (fun p => p.1 = e)).map Prod.snd

def setEntry (s : ModuleState) (e : Nat) (entry : FuncEntry) : ModuleState :=
  { s with globalFuncs := (e, entry) :: (s.globalFuncs.filter (fun p => p.1 ≠ e)) }

/-- `IRGenModule::getAddrOfDispatchThunk`: if an entry already exists for the
link entity, return it (updating linkage when `forDefinition`); otherwise
create a fresh function (no body) and cache it. -/
def getAddrOfDispatchThunk (e : Nat) (forDefinition : Bool) (s : ModuleState) :
    Nat × ModuleState :=
  match lookupFunc s e with
  | some entry =>
      if forDefinition then
        (entry.sym, setEntry s e { entry with defLinkage := true })
      else
        (entry.sym, s)
  | none =>
      let entry : FuncEntry := ⟨s.nextSym, false, forDefinition⟩
      (s.nextSym, { globalFuncs := (e, entry) :: s.globalFuncs, nextSym := s.nextSym + 1 })

/-- `IRGenModule::emitDispatchThunk`: fetch the function for definition; if the
function already has a body (`!f->isDeclaration()`), return without emitting;
otherwise emit the body.  The returned flag records whether a body was
emitted by this call. -/
def emitDispatchThunk (e : Nat) (s : ModuleState) : ModuleState × Bool :=
  let (_, s1) := getAddrOfDispatchThunk e true s
  match lookupFunc s1 e with
  | some entry =>
      if entry.hasBody then (s1, false)
      else (setEntry s1 e { entry with hasBody := true }, true)
  | none => (s1, false)

/-- Requests issued against the registry. -/
inductive Op where
  | declare (e : Nat) (forDefinition : Bool)
  | define (e : Nat)
  deriving DecidableEq, Repr

/-- Observable registry events: a declaration returning a symbol, or a body
emission. -/
inductive Event where
  | declared (e : Nat) (sym : Nat)
  | emittedBody (e : Nat)
  deriving DecidableEq, Repr

def step (s : ModuleState) : Op → ModuleState × List Event
  | .declare e forDefinition =>
      let (sym, s') := getAddrOfDispatchThunk e forDefinition s
      (s', [.declared e sym])
  | .define e =>
      let (s', emitted) := emitDispatchThunk e s
      (s', if emitted then [.emittedBody e] else [])

def runOps (s : ModuleState) : List Op → ModuleState × List Event
  | [] => (s, [])
  | op :: ops =>
      let (s1, evs1) := step s op
      let (s2, evs2) := runOps s1 ops
      (s2, evs1 ++ evs2)

def entrySym (s : ModuleState) (e : Nat) : Option Nat :=
  (lookupFunc s e).map (·.sym)

def entryBody (s : ModuleState) (e : Nat) : Bool :=
  ((lookupFunc s e).map (·.hasBody)).getD false

def countBody (e : Nat) (evs : List Event) : Nat :=
  (evs.filter (fun ev => ev = .emittedBody e)).length

def hasDefine (e : Nat) (ops : List Op) : Bool :=
  ops.any (fun op => op = .define e)

/-! Basic lemmas about the registry step function. -/

theorem lookupFunc_setEntry_same (s : ModuleState) (e : Nat) (entry : FuncEntry) :
    lookupFunc (setEntry s e entry) e = some entry := by
  simp [lookupFunc, setEntry, List.find?]

theorem find?_filter_ne (e e' : Nat) (h : e' ≠ e) (l : List (Nat × FuncEntry)) :
    (l.filter (fun p => p.1 ≠ e)).find? (fun p => p.1 = e') =
      l.find? (fun p => p.1 = e') := by
  induction l with
  | nil => rfl
  | cons hd tl ih =>
    by_cases h1 : hd.1 = e
    · rw [List.filter_cons_of_neg, List.find?_cons_of_neg, ih]
      · simp only [decide_eq_true_eq]
        intro hc; exact h (hc ▸ h1)
      · simp [h1]
    · rw [List.filter_cons_of_pos]
      · by_cases h2 : hd.1 = e'
        · rw [List.find?_cons_of_pos, List.find?_cons_of_pos] <;> simp [h2]
        · rw [List.find?_cons_of_neg, List.find?_cons_of_neg, ih] <;> simp [h2]
      · simp [h1]

theorem lookupFunc_setEntry_other (s : ModuleState) (e e' : Nat) (entry : FuncEntry)
    (h : e' ≠ e) : lookupFunc (setEntry s e entry) e' = lookupFunc s e' := by
  simp only [lookupFunc, setEntry]
  rw [List.find?_cons_of_neg]
  · rw [find?_filter_ne e e' h]
  · simp [Ne.symm h]

/-- The symbol assigned to an entity is stable: once cached, a step never
changes it. -/
theorem entrySym_step_stable (s : ModuleState) (op : Op) (e : Nat) (y : Nat)
    (h : entrySym s e = some y) : entrySym (step s op).1 e = some y := by
  rcases op with ⟨e', forDef⟩ | e'
  · unfold step getAddrOfDispatchThunk
    unfold entrySym at h ⊢
    cases hl : lookupFunc s e' with
    | none =>
      simp only [hl]
      by_cases he : e = e'
      · subst he; rw [hl] at h; simp at h
      · simp only [entrySym, lookupFunc] at h ⊢
        simp only [List.find?]
        have : ¬ ((e', (⟨s.nextSym, false, forDef⟩ : FuncEntry))).1 = e := fun hc =>
          he hc.symm
        simp only [this, decide_eq_true_eq, if_neg]
        simpa [lookupFunc] using h
    | some entry =>
      simp only [hl]
      by_cases hf : forDef
      · simp only [hf, if_true]
        by_cases he : e = e'
        · subst he
          rw [lookupFunc_setEntry_same]
          rw [hl] at h; simp at h
          simp [h]
        · rw [lookupFunc_setEntry_other _ _ _ _ he]
          exact h
      · simp [hf, h]
  · unfold step emitDispatchThunk
    simp only
    have h1 : entrySym (getAddrOfDispatchThunk e' true s).2 e = some y := by
      unfold getAddrOfDispatchThunk
      cases hl : lookupFunc s e' with
      | none =>
        by_cases he : e = e'
        · subst he; unfold entrySym at h; rw [hl] at h; simp at h
        · unfold entrySym lookupFunc at h ⊢
          simp only [List.find?]
          have : ¬ ((e', (⟨s.nextSym, false, true⟩ : FuncEntry))).1 = e := fun hc =>
            he hc.symm
          simp only [this, decide_eq_true_eq, if_neg]
          simpa using h
      | some entry =>
        simp only [if_true]
        by_cases he : e = e'
        · subst he
          unfold entrySym
          rw [lookupFunc_setEntry_same]
          unfold entrySym at h; rw [hl] at h; simp at h
          simp [h]
        · unfold entrySym
          rw [lookupFunc_setEntry_other _ _ _ _ he]
          exact h
    cases hl2 : lookupFunc (getAddrOfDispatchThunk e' true s).2 e' with
    | none => simpa [hl2] using h1
    | some entry =>
      by_cases hb : entry.hasBody
      · simpa [hl2, hb] using h1
      · simp only [hl2, hb, if_neg, Bool.false_eq_true, not_false_iff]
        by_cases he : e = e'
        · subst he
          unfold entrySym
          rw [lookupFunc_setEntry_same]
          unfold entrySym at h1; rw [hl2] at h1; simp at h1
          simp [h1]
        · unfold entrySym
          rw [lookupFunc_setEntry_other _ _ _ _ he]
          exact h1

theorem entrySym_runOps_stable (ops : List Op) (s : ModuleState) (e : Nat) (y : Nat)
    (h : entrySym s e = some y) : entrySym (runOps s ops).1 e = some y := by
  induction ops generalizing s with
  | nil => exact h
  | cons op ops ih =>
    simp only [runOps]
    exact ih _ (entrySym_step_stable s op e y h)

theorem step_declare (s : ModuleState) (e : Nat) (forDef : Bool) :
    step s (.declare e forDef) =
      ((getAddrOfDispatchThunk e forDef s).2,
        [.declared e (getAddrOfDispatchThunk e forDef s).1]) := by
  rcases hp : getAddrOfDispatchThunk e forDef s with ⟨sym, s'⟩
  simp [step, hp]

theorem step_define_eq (s : ModuleState) (e : Nat) :
    step s (.define e) =
      ((emitDispatchThunk e s).1,
        if (emitDispatchThunk e s).2 then [.emittedBody e] else []) := by
  rcases hp : emitDispatchThunk e s with ⟨s', emitted⟩
  simp [step, hp]

theorem emitDispatchThunk_eq (e : Nat) (s : ModuleState) :
    emitDispatchThunk e s =
      (match lookupFunc (getAddrOfDispatchThunk e true s).2 e with
        | some entry =>
            if entry.hasBody then ((getAddrOfDispatchThunk e true s).2, false)
            else (setEntry (getAddrOfDispatchThunk e true s).2 e
                    { entry with hasBody := true }, true)
        | none => ((getAddrOfDispatchThunk e true s).2, false)) := by
  rcases hp : getAddrOfDispatchThunk e true s with ⟨sym, s1⟩
  simp [emitDispatchThunk, hp]

theorem runOps_cons (s : ModuleState) (op : Op) (ops : List Op) :
    runOps s (op :: ops) =
      ((runOps (step s op).1 ops).1, (step s op).2 ++ (runOps (step s op).1 ops).2) := by
  rcases hp : step s op with ⟨s1, evs1⟩
  rcases hq : runOps s1 ops with ⟨s2, evs2⟩
  simp [runOps, hp, hq]

theorem entrySym_getAddr_self (s : ModuleState) (e : Nat) (forDef : Bool) :
    entrySym (getAddrOfDispatchThunk e forDef s).2 e =
      some (getAddrOfDispatchThunk e forDef s).1 := by
  unfold getAddrOfDispatchThunk
  cases hl : lookupFunc s e with
  | none => simp [entrySym, lookupFunc, List.find?]
  | some entry =>
    by_cases hf : forDef
    · simp [hf, entrySym, lookupFunc_setEntry_same]
    · simp [hf, entrySym, hl]

theorem step_declared_sym (s : ModuleState) (op : Op) (e y : Nat)
    (h : Event.declared e y ∈ (step s op).2) : entrySym (step s op).1 e = some y := by
  rcases op with ⟨e', forDef⟩ | e'
  · rw [step_declare] at h ⊢
    simp only [List.mem_singleton, Event.declared.injEq] at h
    obtain ⟨rfl, rfl⟩ := h
    exact entrySym_getAddr_self _ _ _
  · rw [step_define_eq] at h
    by_cases hb : (emitDispatchThunk e' s).2 <;> simp [hb] at h

theorem declared_runOps_sym (ops : List Op) (s : ModuleState) (e y : Nat)
    (h : Event.declared e y ∈ (runOps s ops).2) :
    entrySym (runOps s ops).1 e = some y := by
  induction ops generalizing s with
  | nil => simp [runOps] at h
  | cons op ops ih =>
    rw [runOps_cons] at h ⊢
    simp only [List.mem_append] at h
    rcases h with h | h
    · exact entrySym_runOps_stable ops _ e y (step_declared_sym s op e y h)
    · exact ih _ h

theorem countBody_append (e : Nat) (l1 l2 : List Event) :
    countBody e (l1 ++ l2) = countBody e l1 + countBody e l2 := by
  simp [countBody, List.filter_append]

theorem lookupFunc_getAddr_other (s : ModuleState) (e' : Nat) (forDef : Bool) (e : Nat)
    (h : e ≠ e') :
    lookupFunc (getAddrOfDispatchThunk e' forDef s).2 e = lookupFunc s e := by
  unfold getAddrOfDispatchThunk
  cases hl : lookupFunc s e' with
  | none =>
    simp only [lookupFunc, List.find?]
    have : ¬ ((e', (⟨s.nextSym, false, forDef⟩ : FuncEntry))).1 = e := fun hc => h hc.symm
    simp [this]
  | some entry =>
    by_cases hf : forDef
    · simp only [hf, if_true]
      exact lookupFunc_setEntry_other _ _ _ _ h
    · simp [hf]

theorem lookupFunc_getAddr_self (s : ModuleState) (e' : Nat) (forDef : Bool) :
    ∃ entry : FuncEntry,
      lookupFunc (getAddrOfDispatchThunk e' forDef s).2 e' = some entry ∧
        entry.hasBody = entryBody s e' := by
  unfold getAddrOfDispatchThunk
  cases hl : lookupFunc s e' with
  | none =>
    refine ⟨⟨s.nextSym, false, forDef⟩, ?_, ?_⟩
    · simp [lookupFunc, List.find?]
    · simp [entryBody, hl]
  | some entry =>
    by_cases hf : forDef
    · refine ⟨{ entry with defLinkage := true }, ?_, ?_⟩
      · simp only [hf, if_true]
        exact lookupFunc_setEntry_same _ _ _
      · simp [entryBody, hl]
    · refine ⟨entry, by simp [hf, hl], by simp [entryBody, hl]⟩

theorem entryBody_setEntry_other (s : ModuleState) (p q : Nat) (entry : FuncEntry)
    (h : q ≠ p) : entryBody (setEntry s p entry) q = entryBody s q := by
  simp [entryBody, lookupFunc_setEntry_other s p q entry h]

theorem entryBody_getAddr (s : ModuleState) (e' : Nat) (forDef : Bool) (e : Nat) :
    entryBody (getAddrOfDispatchThunk e' forDef s).2 e = entryBody s e := by
  by_cases h : e = e'
  · subst h
    obtain ⟨entry, hl, hb⟩ := lookupFunc_getAddr_self s e forDef
    simp [entryBody, hl, hb]
  · simp [entryBody, lookupFunc_getAddr_other s e' forDef e h]

theorem step_not_define (s : ModuleState) (op : Op) (e : Nat) (h : op ≠ .define e) :
    countBody e (step s op).2 = 0 ∧ entryBody (step s op).1 e = entryBody s e := by
  rcases op with ⟨e', forDef⟩ | e'
  · rw [step_declare]
    exact ⟨by simp [countBody], entryBody_getAddr s e' forDef e⟩
  · have hne : e ≠ e' := fun hc => h (by rw [hc])
    rw [step_define_eq, emitDispatchThunk_eq]
    obtain ⟨entry, hl, hb⟩ := lookupFunc_getAddr_self s e' true
    simp only [hl]
    by_cases hbody : entry.hasBody
    · simp only [hbody, if_true]
      exact ⟨by simp [countBody], entryBody_getAddr s e' true e⟩
    · simp only [hbody, Bool.false_eq_true, if_false]
      constructor
      · simp [countBody, Ne.symm hne]
      · rw [entryBody_setEntry_other _ e' e _ hne, entryBody_getAddr s e' true e]

theorem step_define_hasBody (s : ModuleState) (e : Nat) (h : entryBody s e = true) :
    countBody e (step s (.define e)).2 = 0 ∧ entryBody (step s (.define e)).1 e = true := by
  rw [step_define_eq, emitDispatchThunk_eq]
  obtain ⟨entry, hl, hb⟩ := lookupFunc_getAddr_self s e true
  rw [h] at hb
  simp only [hl, hb, if_true]
  exact ⟨by simp [countBody], by simp [entryBody, hl, hb]⟩

theorem step_define_noBody (s : ModuleState) (e : Nat) (h : entryBody s e = false) :
    countBody e (step s (.define e)).2 = 1 ∧ entryBody (step s (.define e)).1 e = true := by
  rw [step_define_eq, emitDispatchThunk_eq]
  obtain ⟨entry, hl, hb⟩ := lookupFunc_getAddr_self s e true
  rw [h] at hb
  simp only [hl, hb, Bool.false_eq_true, if_false]
  exact ⟨by simp [countBody], by simp [entryBody, lookupFunc_setEntry_same]⟩

theorem countBody_runOps (ops : List Op) (s : ModuleState) (e : Nat) :
    countBody e (runOps s ops).2 =
      (if entryBody s e then 0 else if hasDefine e ops then 1 else 0) := by
  induction ops generalizing s with
  | nil => simp [runOps, countBody, hasDefine]
  | cons op ops ih =>
    rw [runOps_cons, countBody_append]
    by_cases hb : entryBody s e
    · by_cases hop : op = .define e
      · subst hop
        obtain ⟨h1, h2⟩ := step_define_hasBody s e hb
        rw [h1, ih, h2]
        simp [hb]
      · obtain ⟨h1, h2⟩ := step_not_define s op e hop
        rw [h1, ih, h2]
        simp [hb]
    · rw [Bool.not_eq_true] at hb
      by_cases hop : op = .define e
      · subst hop
        obtain ⟨h1, h2⟩ := step_define_noBody s e hb
        rw [h1, ih, h2]
        simp [hb, hasDefine]
      · obtain ⟨h1, h2⟩ := step_not_define s op e hop
        rw [h1, ih, h2]
        have : hasDefine e (op :: ops) = hasDefine e ops := by
          simp only [hasDefine, List.any_cons, Bool.or_eq_true, decide_eq_true_eq]
          simp [hop]
        rw [this]
        simp [hb]

/-- Claim C2: Declaration is idempotent and definition happens at most once:
over any sequence of registry requests starting from the empty module, all
`declare` results for the same reference return the same entry-point symbol
(and `declare` never emits a body: the body count depends only on `define`
requests), and the number of bodies emitted for a reference is exactly one
when at least one `define` request for it occurs, and zero otherwise. -/
theorem declare_idempotent_define_once (ops : List Op) (e : Nat) :
    (∀ y z, Event.declared e y ∈ (runOps initState ops).2 →
        Event.declared e z ∈ (runOps initState ops).2 → y = z) ∧
      countBody e (runOps initState ops).2 = (if hasDefine e ops then 1 else 0) := by
  constructor
  · intro y z hy hz
    have h1 := declared_runOps_sym ops initState e y hy
    have h2 := declared_runOps_sym ops initState e z hz
    exact Option.some.inj (h1.symm.trans h2)
  · rw [countBody_runOps]
    simp [entryBody, initState, lookupFunc]

/-- Witness for C2: a concrete request sequence with two declares and two
defines for reference 0 — the declares agree and exactly one body is
emitted. -/
theorem declare_idempotent_define_once_witness :
    (0 : Nat) = 0 ∧
      countBody 0 (runOps initState
        [.declare 0 false, .declare 0 true, .define 0, .define 0]).2 = 1 := by
  refine ⟨?_, ?_⟩
  · exact (declare_idempotent_define_once
      [.declare 0 false, .declare 0 true, .define 0, .define 0] 0).1 0 0
      (by decide) (by decide)
  · exact (declare_idempotent_define_once
      [.declare 0 false, .declare 0 true, .define 0, .define 0] 0).2.trans (by decide)

/-! ## Argument marshaling (`IRGenThunk::prepareArguments`)

An `Explosion` is modelled as a list of machine values; `claimNext` takes
from the front, `takeLast` from the back, `transferInto n` moves the first
`n` values, `claimAll` the rest. -/

def takeLast (l : List Value) : Option (Value × List Value) :=
  match l.reverse with
  | [] => none
  | x :: r => some (x, r.reverse)

def claimNext (l : List Value) : Option (Value × List Value) :=
  match l with
  | [] => none
  | x :: r => some (x, r)

theorem takeLast_concat (l : List Value) (x : Value) :
    takeLast (l ++ [x]) = some (x, l) := by
  simp [takeLast, List.reverse_append]

/-- Modelled from the spec: the `NativeConventionSchema` collaborator
(`NativeConventionSchema.h`, consumed by the core but implemented in the
layout subsystem, which is not part of the surveyed source).  A schema either
requires indirect passing or describes a fixed run of `size` native
components; `fromNative` is the schema-driven `mapFromNative` remapping
(native convention components → explosion-schema components) and
`intoNative` the reverse direction used by the call emission.  The spec's
indirection-transparency property (round-trip bit-identity) makes the two
mutually inverse on runs of the schema's size. -/
structure NativeSchema where
  requiresIndirect : Bool
  size : Nat
  arity : Nat
  fromNative : List Value → List Value
  intoNative : List Value → List Value
  into_from : ∀ l : List Value, l.length = size → intoNative (fromNative l) = l
  fromNative_arity : ∀ l : List Value, l.length = size → (fromNative l).length = arity

/-- A declared parameter as `prepareArguments` sees it: either a SIL object
parameter (schematized via its `NativeSchema`), or a SIL address parameter,
which is passed along verbatim (`params.add(original.claimNext())`). -/
inductive ParamDesc where
  | object (schema : NativeSchema)
  | address

/-- The signature facts consulted by the non-async `prepareArguments` path. -/
structure SyncSig where
  isCoroutine : Bool
  isWitnessMethod : Bool
  hasErrorResult : Bool
  returnIndirect : Bool
  numIndirectSILResults : Nat
  paramDescs : List ParamDesc

/-- The convention-agnostic record produced by `prepareArguments`: the fields
of `IRGenThunk` it initializes. -/
structure PreparedArgs where
  selfWitnessTable : Option Value
  selfMetadata : Option Value
  errorResult : Option Value
  selfValue : Value
  indirectReturnSlot : Option Value
  params : List Value

/-- One iteration of the parameter loop in `prepareArguments` (lines
209–242): indirect object parameters are load-as-taken from the claimed
address, register-decomposed ones are remapped through `mapFromNative` on a
run of `size` values, empty schemas contribute nothing, and address
parameters pass through verbatim.  `mem` maps an address to the explosion
loaded from it. -/
def prepareParam (mem : Value → List Value) (desc : ParamDesc)
    (original : List Value) : Option (List Value × List Value) :=
  match desc with
  | .object schema =>
      if schema.requiresIndirect then
        match claimNext original with
        | none => none
        | some (addr, rest) => some (mem addr, rest)
      else if schema.size = 0 then
        some ([], original)
      else if schema.size ≤ original.length then
        some (schema.fromNative (original.take schema.size),
              original.drop schema.size)
      else none
  | .address =>
      match claimNext original with
      | none => none
      | some (v, rest) => some ([v], rest)

def prepareParams (mem : Value → List Value) :
    List ParamDesc → List Value → Option (List Value × List Value)
  | [], original => some ([], original)
  | d :: ds, original =>
      match prepareParam mem d original with
      | none => none
      | some (native, rest) =>
          match prepareParams mem ds rest with
          | none => none
          | some (natives, rest') => some (native ++ natives, rest')

/-- Tail strip of the witness metadata (lines 181–184): conformance table
first, then type descriptor. -/
def stripWitness (isWitnessMethod : Bool) (l : List Value) :
    Option (Option Value × Option Value × List Value) :=
  if isWitnessMethod then
    match takeLast l with
    | none => none
    | some (wt, r) =>
        match takeLast r with
        | none => none
        | some (md, r') => some (some wt, some md, r')
  else some (none, none, l)

/-- Tail strip of the error-slot address (lines 186–189), installed as the
thunk's caller error-result slot. -/
def stripError (hasErrorResult : Bool) (l : List Value) :
    Option (Option Value × List Value) :=
  if hasErrorResult then
    match takeLast l with
    | none => none
    | some (e, r) => some (some e, r)
  else some (none, l)

/-- The non-asynchronous `prepareArguments` path (lines 178–247), as a
function from the incoming flat value sequence to the prepared record. -/
def prepareArgumentsSync (sig : SyncSig) (mem : Value → List Value)
    (original : List Value) : Option PreparedArgs :=
  match stripWitness sig.isWitnessMethod original with
  | none => none
  | some (wt?, md?, r1) =>
    match stripError sig.hasErrorResult r1 with
    | none => none
    | some (err?, r2) =>
      -- coroutine: transfer the leading resume-buffer value untouched
      match (if sig.isCoroutine then
               (claimNext r2).map (fun p => ([p.1], p.2))
             else some ([], r2)) with
      | none => none
      | some (coro, r3) =>
        match takeLast r3 with
        | none => none
        | some (selfV, r4) =>
          match (if sig.returnIndirect then
                   (claimNext r4).map (fun p => (some p.1, p.2))
                 else some (none, r4)) with
          | none => none
          | some (irs?, r5) =>
            match (if sig.numIndirectSILResults ≤ r5.length then
                     some (r5.take sig.numIndirectSILResults,
                           r5.drop sig.numIndirectSILResults)
                   else none) with
            | none => none
            | some (indirectResults, r6) =>
              match prepareParams mem sig.paramDescs r6 with
              | none => none
              | some (paramNatives, r7) =>
                some { selfWitnessTable := wt?, selfMetadata := md?,
                       errorResult := err?, selfValue := selfV,
                       indirectReturnSlot := irs?,
                       params := coro ++ indirectResults ++ paramNatives ++ r7 }

/-- A well-formed flat incoming value sequence for the sync path, organized
by its logical pieces. -/
structure SyncCallArgs where
  coroBuffer : Value
  sretSlot : Value
  indirectResults : List Value
  paramRuns : List (List Value)
  extras : List Value
  selfV : Value
  errSlot : Value
  selfMeta : Value
  selfWT : Value

/-- A flat value run matches a parameter description when it has the length
the parameter's convention dictates. -/
def runMatches (d : ParamDesc) (run : List Value) : Prop :=
  match d with
  | .object schema =>
      if schema.requiresIndirect then run.length = 1 else run.length = schema.size
  | .address => run.length = 1

/-- The physical layout of the incoming value sequence of a sync thunk:
coroutine buffer, native-indirect return slot, formal indirect results,
declared parameter runs, trailing untyped values, receiver, error slot,
witness metadata (type descriptor then conformance table last). -/
def encodeSync (sig : SyncSig) (a : SyncCallArgs) : List Value :=
  (((if sig.isCoroutine then [a.coroBuffer] else []) ++
      (if sig.returnIndirect then [a.sretSlot] else []) ++
      a.indirectResults ++ a.paramRuns.flatten ++ a.extras ++ [a.selfV]) ++
    (if sig.hasErrorResult then [a.errSlot] else [])) ++
  (if sig.isWitnessMethod then [a.selfMeta, a.selfWT] else [])

/-- The logical explosion a parameter run denotes: loaded value components
for indirect parameters, `mapFromNative` image for register-decomposed ones,
the verbatim value for address parameters. -/
def decodeParam (mem : Value → List Value) (d : ParamDesc)
    (run : List Value) : List Value :=
  match d with
  | .object schema =>
      if schema.requiresIndirect then mem (run.headD 0)
      else if schema.size = 0 then []
      else schema.fromNative run
  | .address => run

theorem stripWitness_spec (b : Bool) (X : List Value) (m w : Value) :
    stripWitness b (X ++ (if b then [m, w] else [])) =
      some ((if b then some w else none), (if b then some m else none), X) := by
  cases b
  · simp [stripWitness]
  · have h : X ++ [m, w] = (X ++ [m]) ++ [w] := by simp
    simp only [if_true, stripWitness, h, takeLast_concat]

theorem stripError_spec (b : Bool) (X : List Value) (e : Value) :
    stripError b (X ++ (if b then [e] else [])) =
      some ((if b then some e else none), X) := by
  cases b
  · simp [stripError]
  · simp [stripError, takeLast_concat]

theorem prepareParam_spec (mem : Value → List Value) (d : ParamDesc)
    (run rest : List Value) (h : runMatches d run) :
    prepareParam mem d (run ++ rest) = some (decodeParam mem d run, rest) := by
  cases d with
  | object schema =>
    by_cases hi : schema.requiresIndirect
    · simp only [runMatches, hi, if_true] at h
      obtain ⟨addr, rfl⟩ : ∃ addr, run = [addr] := by
        cases run with
        | nil => simp at h
        | cons x xs => cases xs with
          | nil => exact ⟨x, rfl⟩
          | cons y ys => simp at h
      simp [prepareParam, decodeParam, hi, claimNext]
    · simp only [runMatches, hi, if_false, Bool.false_eq_true] at h
      by_cases hz : schema.size = 0
      · have : run = [] := List.length_eq_zero.mp (by rw [h, hz])
        subst this
        simp [prepareParam, decodeParam, hi, hz]
      · have hle : schema.size ≤ (run ++ rest).length := by
          rw [List.length_append, ← h]; omega
        have htake : (run ++ rest).take schema.size = run := by
          rw [← h]; exact List.take_left run rest
        have hdrop : (run ++ rest).drop schema.size = rest := by
          rw [← h]; exact List.drop_left run rest
        have hlen : schema.size ≤ run.length + rest.length := by omega
        simp only [prepareParam, decodeParam, hi, hz, htake, hdrop,
          Bool.false_eq_true, if_false, if_true, List.length_append, hlen]
  | address =>
    obtain ⟨v, rfl⟩ : ∃ v, run = [v] := by
      simp only [runMatches] at h
      cases run with
      | nil => simp at h
      | cons x xs => cases xs with
        | nil => exact ⟨x, rfl⟩
        | cons y ys => simp at h
    simp [prepareParam, decodeParam, claimNext]

theorem prepareParams_spec (mem : Value → List Value) (ds : List ParamDesc)
    (runs : List (List Value)) (rest : List Value)
    (h : List.Forall₂ runMatches ds runs) :
    prepareParams mem ds (runs.flatten ++ rest) =
      some ((List.zipWith (decodeParam mem) ds runs).flatten, rest) := by
  induction h with
  | nil => simp [prepareParams]
  | cons hd htl ih =>
    rename_i d run ds' runs'
    simp only [List.flatten, List.zipWith, prepareParams, List.append_assoc]
    rw [prepareParam_spec mem d run (runs'.flatten ++ rest) hd]
    simp [ih]

theorem claimNext_cons (x : Value) (l : List Value) :
    claimNext (x :: l) = some (x, l) := rfl

theorem takeLast_cons_concat (x : Value) (l : List Value) (y : Value) :
    takeLast (x :: (l ++ [y])) = some (y, x :: l) := by
  have h : x :: (l ++ [y]) = (x :: l) ++ [y] := rfl
  rw [h, takeLast_concat]

/-- Claim C5: In the non-asynchronous (ordinary/coroutine) path, for every
well-formed flat incoming value sequence, `prepareArguments` strips from the
tail in order: conformance table then type descriptor (protocol dispatch
only), then the error-slot address (error convention only, installed as the
error result), then transfers the leading coroutine buffer untouched, takes
the receiver from the tail, claims the native-indirect return destination
from the front when the return schema is indirect, transfers the formal
indirect results, marshals declared parameters in order (indirect ones via
load-as-take, register runs via the schema mapping), and passes every
remaining value through verbatim. -/
theorem prepareArguments_sync_order (sig : SyncSig) (mem : Value → List Value)
    (a : SyncCallArgs)
    (hlen : a.indirectResults.length = sig.numIndirectSILResults)
    (hruns : List.Forall₂ runMatches sig.paramDescs a.paramRuns) :
    prepareArgumentsSync sig mem (encodeSync sig a) =
      some { selfWitnessTable := if sig.isWitnessMethod then some a.selfWT else none,
             selfMetadata := if sig.isWitnessMethod then some a.selfMeta else none,
             errorResult := if sig.hasErrorResult then some a.errSlot else none,
             selfValue := a.selfV,
             indirectReturnSlot := if sig.returnIndirect then some a.sretSlot else none,
             params := (if sig.isCoroutine then [a.coroBuffer] else []) ++
               a.indirectResults ++
               (List.zipWith (decodeParam mem) sig.paramDescs a.paramRuns).flatten ++
               a.extras } := by
  have hparams := prepareParams_spec mem sig.paramDescs a.paramRuns a.extras hruns
  have hle : sig.numIndirectSILResults ≤
      ((a.indirectResults ++ a.paramRuns.flatten) ++ a.extras).length := by
    simp [← hlen]
  have htake : ((a.indirectResults ++ a.paramRuns.flatten) ++ a.extras).take
      sig.numIndirectSILResults = a.indirectResults := by
    rw [List.append_assoc]; exact List.take_left' hlen
  have hdrop : ((a.indirectResults ++ a.paramRuns.flatten) ++ a.extras).drop
      sig.numIndirectSILResults = a.paramRuns.flatten ++ a.extras := by
    rw [List.append_assoc]; exact List.drop_left' hlen
  unfold prepareArgumentsSync encodeSync
  simp only [stripWitness_spec, stripError_spec]
  cases hc : sig.isCoroutine <;> cases hr : sig.returnIndirect <;>
    simp only [hc, hr, Bool.false_eq_true, if_false, if_true, List.nil_append,
      List.cons_append, List.singleton_append, List.append_nil,
      claimNext_cons, takeLast_concat, takeLast_cons_concat, Option.map_some',
      hle, htake, hdrop, hparams, if_pos, if_neg]

def indirectSchemaW : NativeSchema :=
  { requiresIndirect := true, size := 1, arity := 1,
    fromNative := id, intoNative := id,
    into_from := fun _ _ => rfl, fromNative_arity := fun _ h => h }

def direct2SchemaW : NativeSchema :=
  { requiresIndirect := false, size := 2, arity := 2,
    fromNative := List.reverse, intoNative := List.reverse,
    into_from := fun l _ => List.reverse_reverse l,
    fromNative_arity := fun l h => by simpa using h }

def sigW : SyncSig :=
  { isCoroutine := true, isWitnessMethod := true, hasErrorResult := true,
    returnIndirect := false, numIndirectSILResults := 1,
    paramDescs := [.object indirectSchemaW, .object direct2SchemaW, .address] }

def memW : Value → List Value := fun a => [a + 100]

def argsW : SyncCallArgs :=
  { coroBuffer := 1, sretSlot := 2, indirectResults := [3],
    paramRuns := [[7], [4, 5], [9]], extras := [8], selfV := 10,
    errSlot := 11, selfMeta := 12, selfWT := 13 }

/-- Witness for C5: a coroutine witness-method thunk with an error result,
one formal indirect result and three parameters (indirect, two-register,
address) marshals a concrete incoming sequence exactly as described. -/
theorem prepareArguments_sync_order_witness :
    prepareArgumentsSync sigW memW (encodeSync sigW argsW) =
      some { selfWitnessTable := some 13, selfMetadata := some 12,
             errorResult := some 11, selfValue := 10,
             indirectReturnSlot := none,
             params := [1, 3, 107, 5, 4, 9, 8] } := by
  have h := prepareArguments_sync_order sigW memW argsW (by rfl)
    (by simp [sigW, argsW, runMatches, indirectSchemaW, direct2SchemaW])
  rw [h]
  rfl

/-! ## Asynchronous argument preparation (lines 129–177)

In the async path the incoming arguments live at fixed offsets of the async
context frame described by the externally computed `AsyncContextLayout`. -/

/-- Modelled from the spec: the `AsyncContextLayout` collaborator
(`getAsyncContextLayout`, implemented in the call-emission subsystem, not
part of the surveyed source) — a field-offset map over a frame holding the
forwarded local context, witness metadata, error slot, indirect-return
addresses, arguments and generic bindings.  The frame is modelled by the
values its fields hold at entry. -/
structure AsyncFrame where
  localContext : Value
  selfMetadata : Value
  selfWitnessTable : Value
  errorAddr : Value
  indirectReturns : List Value
  arguments : List Value
  bindings : List Value

/-- The signature facts the async path consults. -/
structure AsyncSig where
  isWitnessMethod : Bool
  hasErrorResult : Bool
  indirectReturnCount : Nat
  argumentCount : Nat
  hasBindings : Bool

/-- A context-frame field touched by the async path, recorded in emission
order. -/
inductive AsyncField where
  | localContext
  | selfMetadata
  | selfWitnessTable
  | errorLayout
  | indirectReturn (i : Nat)
  | argument (i : Nat)
  | bindings
  deriving DecidableEq, Repr

/-- The asynchronous `prepareArguments` path: loads the local context
(receiver), then — if protocol-dispatched — the self metadata followed by
the self witness table, then projects the error layout and installs it as
the caller error slot, then loads each indirect-return address and each
argument in index order, then saves the generic-binding block into the
parameter stream.  Returns the prepared record together with the trace of
frame fields in the order the emitted code touches them. -/
def prepareArgumentsAsync (sig : AsyncSig) (frame : AsyncFrame) :
    PreparedArgs × List AsyncField :=
  let t0 : List AsyncField := [.localContext]
  let (sm?, swt?, t1) :=
    if sig.isWitnessMethod then
      (some frame.selfMetadata, some frame.selfWitnessTable,
        t0 ++ [.selfMetadata, .selfWitnessTable])
    else (none, none, t0)
  let (err?, t2) :=
    if sig.hasErrorResult then (some frame.errorAddr, t1 ++ [.errorLayout])
    else (none, t1)
  let (params1, t3) :=
    (List.range sig.indirectReturnCount).foldl
      (fun (acc : List Value × List AsyncField) i =>
        (acc.1 ++ [frame.indirectReturns.getD i 0], acc.2 ++ [.indirectReturn i]))
      ([], t2)
  let (params2, t4) :=
    (List.range sig.argumentCount).foldl
      (fun (acc : List Value × List AsyncField) i =>
        (acc.1 ++ [frame.arguments.getD i 0], acc.2 ++ [.argument i]))
      (params1, t3)
  let (params3, t5) :=
    if sig.hasBindings then (params2 ++ frame.bindings, t4 ++ [.bindings])
    else (params2, t4)
  ({ selfWitnessTable := swt?, selfMetadata := sm?, errorResult := err?,
     selfValue := frame.localContext, indirectReturnSlot := none,
     params := params3 }, t5)

theorem foldl_append_pair {α β γ : Type} (f : α → β) (g : α → γ) (l : List α)
    (acc1 : List β) (acc2 : List γ) :
    l.foldl (fun acc i => (acc.1 ++ [f i], acc.2 ++ [g i])) (acc1, acc2) =
      (acc1 ++ l.map f, acc2 ++ l.map g) := by
  induction l generalizing acc1 acc2 with
  | nil => simp
  | cons x xs ih => simp [ih]

/-- Claim C6: The asynchronous path loads frame fields in exactly this fixed
order — local context/receiver; self metadata then self witness table when
protocol-dispatched; the error-slot address when the type has an error
result, installed as the caller error slot; every indirect-return address in
index order; every argument in index order; then the generic-binding block —
and it feeds the same convention-agnostic record as the ordinary path. -/
theorem prepareArguments_async_order (sig : AsyncSig) (frame : AsyncFrame) :
    prepareArgumentsAsync sig frame =
      ({ selfWitnessTable :=
           if sig.isWitnessMethod then some frame.selfWitnessTable else none,
         selfMetadata :=
           if sig.isWitnessMethod then some frame.selfMetadata else none,
         errorResult :=
           if sig.hasErrorResult then some frame.errorAddr else none,
         selfValue := frame.localContext,
         indirectReturnSlot := none,
         params :=
           ((List.range sig.indirectReturnCount).map
               (fun i => frame.indirectReturns.getD i 0)) ++
             ((List.range sig.argumentCount).map
               (fun i => frame.arguments.getD i 0)) ++
             (if sig.hasBindings then frame.bindings else []) },
        [AsyncField.localContext] ++
          (if sig.isWitnessMethod then
            [AsyncField.selfMetadata, AsyncField.selfWitnessTable] else []) ++
          (if sig.hasErrorResult then [AsyncField.errorLayout] else []) ++
          ((List.range sig.indirectReturnCount).map AsyncField.indirectReturn) ++
          ((List.range sig.argumentCount).map AsyncField.argument) ++
          (if sig.hasBindings then [AsyncField.bindings] else [])) := by
  unfold prepareArgumentsAsync
  cases hw : sig.isWitnessMethod <;> cases he : sig.hasErrorResult <;>
    cases hb : sig.hasBindings <;>
      simp [hw, he, hb, foldl_append_pair]

/-! ## Target resolution (`IRGenThunk::lookupMethod`, lines 250–281) -/

/-- Modelled from the spec: the metadata/witness collaborator services
consumed by `lookupMethod` — `emitWitnessMethodValue` (protocol witness
table indexing at the method's fixed slot), `emitVirtualMethodValue`
(class virtual table indexing at the method's statically assigned slot,
honoring resilience-extended layout and pointer authentication), and
`emitHeapMetadataRefForHeapObject` (dynamic-type metadata of a heap
object) — all implemented outside the surveyed source. -/
structure RuntimeEnv where
  witnessTableSlot : Value → Nat → Value
  vtableSlot : Value → Nat → Value
  dynamicMetadata : Value → Value

/-- The facts of a method reference that target resolution consults. -/
structure MethodRef where
  isWitnessMethod : Bool
  selfIsMetatype : Bool
  witnessSlot : Nat
  vtableSlot : Nat

/-- A resolved callee: function value plus the receiver to pass. -/
structure CalleePair where
  fnPtr : Value
  selfArg : Value
  deriving DecidableEq, Repr

/-- `IRGenThunk::lookupMethod`: protocol case indexes the receiver's witness
table; class case uses the receiver itself as metadata when `self` is a
metatype and otherwise derives the heap object's dynamic metadata, then
indexes the virtual table. -/
def lookupMethod (env : RuntimeEnv) (ref : MethodRef) (prepared : PreparedArgs) :
    CalleePair :=
  if ref.isWitnessMethod then
    { fnPtr := env.witnessTableSlot (prepared.selfWitnessTable.getD 0) ref.witnessSlot,
      selfArg := prepared.selfValue }
  else
    let metadata :=
      if ref.selfIsMetatype then prepared.selfValue
      else env.dynamicMetadata prepared.selfValue
    { fnPtr := env.vtableSlot metadata ref.vtableSlot,
      selfArg := prepared.selfValue }

/-- Claim C7: Target resolution is selected solely by whether the declaring
context is a protocol: in the protocol case the callable is the witness
loaded from the receiver's witness table at the method's fixed slot paired
with the original receiver; in the class case the metadata is the receiver
itself when the static self type is a metatype and otherwise the dynamic
type of the receiver heap object, the callable is that metadata's virtual
table entry at the method's assigned slot, and in every case the receiver is
forwarded unchanged. -/
theorem lookupMethod_target_resolution (env : RuntimeEnv) (ref : MethodRef)
    (prepared : PreparedArgs) :
    (ref.isWitnessMethod = true →
        lookupMethod env ref prepared =
          { fnPtr := env.witnessTableSlot (prepared.selfWitnessTable.getD 0)
              ref.witnessSlot,
            selfArg := prepared.selfValue }) ∧
      (ref.isWitnessMethod = false → ref.selfIsMetatype = true →
        lookupMethod env ref prepared =
          { fnPtr := env.vtableSlot prepared.selfValue ref.vtableSlot,
            selfArg := prepared.selfValue }) ∧
      (ref.isWitnessMethod = false → ref.selfIsMetatype = false →
        lookupMethod env ref prepared =
          { fnPtr := env.vtableSlot (env.dynamicMetadata prepared.selfValue)
              ref.vtableSlot,
            selfArg := prepared.selfValue }) ∧
      (lookupMethod env ref prepared).selfArg = prepared.selfValue := by
  refine ⟨fun hw => by simp [lookupMethod, hw],
          fun hw hm => by simp [lookupMethod, hw, hm],
          fun hw hm => by simp [lookupMethod, hw, hm], ?_⟩
  by_cases hw : ref.isWitnessMethod <;> simp [lookupMethod, hw]

def envW : RuntimeEnv :=
  { witnessTableSlot := fun w s => w * 100 + s,
    vtableSlot := fun m s => m * 1000 + s,
    dynamicMetadata := fun obj => obj + 7 }

def preparedW : PreparedArgs :=
  { selfWitnessTable := some 13, selfMetadata := some 12, errorResult := none,
    selfValue := 10, indirectReturnSlot := none, params := [] }

/-- Witness for C7: the three dispatch cases at concrete inputs. -/
theorem lookupMethod_target_resolution_witness :
    lookupMethod envW ⟨true, false, 3, 5⟩ preparedW = ⟨1303, 10⟩ ∧
      lookupMethod envW ⟨false, true, 3, 5⟩ preparedW = ⟨10005, 10⟩ ∧
      lookupMethod envW ⟨false, false, 3, 5⟩ preparedW = ⟨17005, 10⟩ := by
  refine ⟨?_, ?_, ?_⟩
  · exact ((lookupMethod_target_resolution envW ⟨true, false, 3, 5⟩ preparedW).1
      rfl).trans rfl
  · exact ((lookupMethod_target_resolution envW ⟨false, true, 3, 5⟩ preparedW).2.1
      rfl rfl).trans rfl
  · exact ((lookupMethod_target_resolution envW ⟨false, false, 3, 5⟩ preparedW).2.2.1
      rfl rfl).trans rfl

/-! ## Run-time forwarding model (`IRGenThunk::emit` + call emission)

The observable behavior of an emitted thunk is modelled against the
behavior of the program's functions: each function value, applied to the
logical input its prologue decodes, either produces a direct result
explosion together with the contents it stores through its indirect-return
destination, or raises an error.  The error convention (spec §7): on error
the callee writes the error through the error slot and does not populate its
return destination. -/

abbrev Mem := Value → List Value

def writeMem (m : Mem) (addr : Value) (v : List Value) : Mem :=
  fun a => if a = addr then v else m a

/-- The logical input a callee's prologue decodes from a call under the
shared original signature. -/
structure CalleeInput where
  receiver : Value
  coroBuffer : Option Value
  indirectResultAddrs : List Value
  explosions : List (List Value)
  extras : List Value
  witness : Option (Value × Value)

inductive ImplOutcome where
  | ok (direct : List Value) (indirectWrite : List Value)
  | err (e : Value)

/-- Behavior of the program's function values on decoded inputs. -/
abbrev ImplMap := Value → CalleeInput → ImplOutcome

/-- Observable effect of one invocation: the scalar result stream returned
(if any) and the final memory (error slot and indirect-return destination
included). -/
structure Observable where
  scalarResult : Option (List Value)
  mem : Mem

/-- Execute a resolved callee on a decoded input, with the forwarded
indirect-return destination and error-slot address: on success the indirect
result is stored through the destination (or the direct result stream is
returned); on error the error value is written through the error slot, no
result is produced, and the destination is not touched. -/
def execCall (b : CalleeInput → ImplOutcome) (view : CalleeInput)
    (dest? : Option Value) (errSlot? : Option Value) (m : Mem) : Observable :=
  match b view with
  | .ok dr iw =>
      match dest? with
      | some d => { scalarResult := none, mem := writeMem m d iw }
      | none => { scalarResult := some dr, mem := m }
  | .err e =>
      { scalarResult := none,
        mem := match errSlot? with
          | some s => writeMem m s [e]
          | none => m }

/-- The explosion arity a parameter contributes to the flat prepared
parameter stream. -/
def ParamDesc.arity : ParamDesc → Nat
  | .object schema =>
      if schema.requiresIndirect then schema.arity
      else if schema.size = 0 then 0 else schema.arity
  | .address => 1

/-- Re-split the flat prepared parameter stream into per-parameter
explosions, as the call emission consumes it against the callee's
signature. -/
def splitParams : List ParamDesc → List Value →
    Option (List (List Value) × List Value)
  | [], l => some ([], l)
  | d :: ds, l =>
      if d.arity ≤ l.length then
        match splitParams ds (l.drop d.arity) with
        | none => none
        | some (es, rest) => some (l.take d.arity :: es, rest)
      else none

/-- The call emission's consumption of the thunk's prepared parameter
stream: the coroutine buffer, the forwarded indirect-result addresses, the
per-parameter explosions, and the trailing pass-through values. -/
def emissionSplit (sig : SyncSig) (params : List Value) :
    Option (Option Value × List Value × List (List Value) × List Value) :=
  let (coro?, r0) :=
    if sig.isCoroutine then (params.head?, params.drop 1) else (none, params)
  if sig.numIndirectSILResults ≤ r0.length then
    match splitParams sig.paramDescs (r0.drop sig.numIndirectSILResults) with
    | none => none
    | some (es, extras) =>
        some (coro?, r0.take sig.numIndirectSILResults, es, extras)
  else none

/-- Modelled from the spec: the call-emission primitive's argument
externalization (`CallEmission::setArgs`, implemented outside the surveyed
source).  An indirect parameter's explosion is spilled to a temporary whose
address is passed — a store/load round trip with no other observable effect
(spec: indirection transparency, single ownership transfer) — so the value
reaching the callee is the explosion itself; a register-decomposed
parameter is mapped back into the native convention. -/
def emissionEncodeParam : ParamDesc → List Value → List Value
  | .object schema, e =>
      if schema.requiresIndirect then e
      else if schema.size = 0 then []
      else schema.intoNative e
  | .address, e => e

/-- Modelled from the spec: the callee prologue's decode of one parameter
under the shared original signature (the reverse of the convention
encoding). -/
def calleeDecodeParam : ParamDesc → List Value → List Value
  | .object schema, r =>
      if schema.requiresIndirect then r
      else if schema.size = 0 then []
      else schema.fromNative r
  | .address, r => r

/-- The witness-metadata pair forwarded to the callee. -/
def witnessPair (p : PreparedArgs) : Option (Value × Value) :=
  match p.selfMetadata, p.selfWitnessTable with
  | some m, some w => some (m, w)
  | _, _ => none

/-- Observable behavior of one invocation of the emitted thunk (sync path):
decode the incoming arguments (`prepareArguments`), resolve the target
(`lookupMethod`), re-encode the prepared stream for the call
(`CallEmission`), and execute the callee with the forwarded indirect-return
destination and error slot. -/
def runThunkSync (impl : ImplMap) (env : RuntimeEnv) (ref : MethodRef)
    (sig : SyncSig) (mem : Mem) (incoming : List Value) : Option Observable :=
  match prepareArgumentsSync sig mem incoming with
  | none => none
  | some prepared =>
    match emissionSplit sig prepared.params with
    | none => none
    | some (coro?, irs, es, extras) =>
      let callee := lookupMethod env ref prepared
      let view : CalleeInput :=
        { receiver := callee.selfArg,
          coroBuffer := coro?,
          indirectResultAddrs := irs,
          explosions :=
            List.zipWith (fun d e => calleeDecodeParam d (emissionEncodeParam d e))
              sig.paramDescs es,
          extras := extras,
          witness := witnessPair prepared }
      some (execCall (impl callee.fnPtr) view prepared.indirectReturnSlot
        prepared.errorResult mem)

/-- Observable behavior of invoking an implementation directly on the same
incoming arguments: the callee's own prologue performs the same decode the
shared original signature dictates. -/
def runDirectSync (b : CalleeInput → ImplOutcome) (sig : SyncSig) (mem : Mem)
    (incoming : List Value) : Option Observable :=
  match prepareArgumentsSync sig mem incoming with
  | none => none
  | some dec =>
    match emissionSplit sig dec.params with
    | none => none
    | some (coro?, irs, es, extras) =>
      let view : CalleeInput :=
        { receiver := dec.selfValue,
          coroBuffer := coro?,
          indirectResultAddrs := irs,
          explosions := es,
          extras := extras,
          witness := witnessPair dec }
      some (execCall b view dec.indirectReturnSlot dec.errorResult mem)

/-- The implementation pointer the dispatch resolves to, at the logical
level of the receiver and its witness table. -/
def resolvedPtr (env : RuntimeEnv) (ref : MethodRef) (selfV wtable : Value) :
    Value :=
  if ref.isWitnessMethod then env.witnessTableSlot wtable ref.witnessSlot
  else
    env.vtableSlot
      (if ref.selfIsMetatype then selfV else env.dynamicMetadata selfV)
      ref.vtableSlot

theorem splitParams_flatten (ds : List ParamDesc) (es : List (List Value))
    (rest : List Value)
    (h : List.Forall₂ (fun d e => e.length = ParamDesc.arity d) ds es) :
    splitParams ds (es.flatten ++ rest) = some (es, rest) := by
  induction h with
  | nil => simp [splitParams]
  | cons hd htl ih =>
    rename_i d e ds' es'
    have hle : d.arity ≤ (e ++ (es'.flatten ++ rest)).length := by
      simp [← hd]
    have htake : (e ++ (es'.flatten ++ rest)).take d.arity = e := by
      rw [← hd]; exact List.take_left _ _
    have hdrop : (e ++ (es'.flatten ++ rest)).drop d.arity = es'.flatten ++ rest := by
      rw [← hd]; exact List.drop_left _ _
    simp only [List.flatten_cons, splitParams, List.append_assoc, hle, if_true,
      htake, hdrop, ih]

theorem emissionSplit_spec (sig : SyncSig) (cb : Value) (irs : List Value)
    (es : List (List Value)) (extras : List Value)
    (hirs : irs.length = sig.numIndirectSILResults)
    (hlens : List.Forall₂ (fun d e => e.length = ParamDesc.arity d)
      sig.paramDescs es) :
    emissionSplit sig
        ((if sig.isCoroutine then [cb] else []) ++ irs ++ es.flatten ++ extras) =
      some ((if sig.isCoroutine then some cb else none), irs, es, extras) := by
  have hsp := splitParams_flatten sig.paramDescs es extras hlens
  have hle : sig.numIndirectSILResults ≤ ((irs ++ es.flatten) ++ extras).length := by
    simp [← hirs]
  have htake : ((irs ++ es.flatten) ++ extras).take sig.numIndirectSILResults
      = irs := by
    rw [List.append_assoc]; exact List.take_left' hirs
  have hdrop : ((irs ++ es.flatten) ++ extras).drop sig.numIndirectSILResults
      = es.flatten ++ extras := by
    rw [List.append_assoc]; exact List.drop_left' hirs
  cases hc : sig.isCoroutine <;>
    simp only [emissionSplit, hc, Bool.false_eq_true, if_false, if_true,
      List.nil_append, List.cons_append, List.singleton_append,
      List.head?_cons, List.drop_succ_cons, List.drop_zero, hle, htake, hdrop,
      hsp]

theorem calleeDecode_roundtrip (mem : Mem) (d : ParamDesc) (run : List Value)
    (h : runMatches d run) :
    calleeDecodeParam d (emissionEncodeParam d (decodeParam mem d run)) =
      decodeParam mem d run := by
  cases d with
  | object schema =>
    by_cases hi : schema.requiresIndirect
    · simp [calleeDecodeParam, emissionEncodeParam, decodeParam, hi]
    · by_cases hz : schema.size = 0
      · simp [calleeDecodeParam, emissionEncodeParam, decodeParam, hi, hz]
      · simp only [runMatches, hi, Bool.false_eq_true, if_false] at h
        simp [calleeDecodeParam, emissionEncodeParam, decodeParam, hi, hz,
          schema.into_from run h]
  | address => simp [calleeDecodeParam, emissionEncodeParam]

theorem zip_roundtrip (mem : Mem) (ds : List ParamDesc)
    (runs : List (List Value)) (h : List.Forall₂ runMatches ds runs) :
    List.zipWith (fun d e => calleeDecodeParam d (emissionEncodeParam d e)) ds
        (List.zipWith (decodeParam mem) ds runs) =
      List.zipWith (decodeParam mem) ds runs := by
  induction h with
  | nil => simp
  | cons hd htl ih =>
    rename_i d run ds' runs'
    simp only [List.zipWith, List.cons.injEq]
    exact ⟨calleeDecode_roundtrip mem d run hd, ih⟩

theorem forall₂_decode_length (mem : Mem) (ds : List ParamDesc)
    (runs : List (List Value))
    (h : List.Forall₂ (fun d run => (decodeParam mem d run).length = ParamDesc.arity d)
      ds runs) :
    List.Forall₂ (fun d e => e.length = ParamDesc.arity d) ds
      (List.zipWith (decodeParam mem) ds runs) := by
  induction h with
  | nil => exact List.Forall₂.nil
  | cons hd htl ih =>
    exact List.Forall₂.cons hd ih

theorem lookupMethod_prepared (env : RuntimeEnv) (ref : MethodRef)
    (sig : SyncSig) (a : SyncCallArgs) (pr : List Value)
    (hw : ref.isWitnessMethod = sig.isWitnessMethod) :
    lookupMethod env ref
        { selfWitnessTable := if sig.isWitnessMethod then some a.selfWT else none,
          selfMetadata := if sig.isWitnessMethod then some a.selfMeta else none,
          errorResult := if sig.hasErrorResult then some a.errSlot else none,
          selfValue := a.selfV,
          indirectReturnSlot := if sig.returnIndirect then some a.sretSlot else none,
          params := pr } =
      ⟨resolvedPtr env ref a.selfV a.selfWT, a.selfV⟩ := by
  cases hww : ref.isWitnessMethod
  · simp [lookupMethod, resolvedPtr, hww]
  · have hs : sig.isWitnessMethod = true := hw ▸ hww
    simp [lookupMethod, resolvedPtr, hww, hs]

/-! ### Asynchronous forwarding -/

/-- The logical input an asynchronous callee decodes from its context
frame. -/
structure AsyncView where
  receiver : Value
  indirectReturns : List Value
  arguments : List Value
  bindings : List Value
  witness : Option (Value × Value)

abbrev AsyncImplMap := Value → AsyncView → ImplOutcome

/-- Execute a resolved asynchronous callee: on error the error value is
written through the forwarded error-slot address. -/
def execCallAsync (b : AsyncView → ImplOutcome) (view : AsyncView)
    (errSlot? : Option Value) (m : Mem) : Observable :=
  match b view with
  | .ok dr _ => { scalarResult := some dr, mem := m }
  | .err e =>
      { scalarResult := none,
        mem := match errSlot? with
          | some s => writeMem m s [e]
          | none => m }

/-- Observable behavior of one invocation of an asynchronous thunk: decode
the caller's context frame (`prepareArguments`, async path), resolve the
target, and call it — the call emission stores the forwarded values into
the callee's frame at the same layout offsets and the callee reloads them,
a round trip with no other observable effect. -/
def runThunkAsync (impl : AsyncImplMap) (env : RuntimeEnv) (ref : MethodRef)
    (sig : AsyncSig) (frame : AsyncFrame) (m : Mem) : Option Observable :=
  let prepared := (prepareArgumentsAsync sig frame).1
  let p := prepared.params
  if sig.indirectReturnCount + sig.argumentCount ≤ p.length then
    let irs := p.take sig.indirectReturnCount
    let r1 := p.drop sig.indirectReturnCount
    let args := r1.take sig.argumentCount
    let binds := r1.drop sig.argumentCount
    let callee := lookupMethod env ref prepared
    let view : AsyncView :=
      { receiver := callee.selfArg, indirectReturns := irs,
        arguments := args, bindings := binds,
        witness := witnessPair prepared }
    some (execCallAsync (impl callee.fnPtr) view prepared.errorResult m)
  else none

/-- Observable behavior of invoking an asynchronous implementation directly
on the same context frame: its own prologue decodes the same layout
fields. -/
def runDirectAsync (b : AsyncView → ImplOutcome) (sig : AsyncSig)
    (frame : AsyncFrame) (m : Mem) : Option Observable :=
  let view : AsyncView :=
    { receiver := frame.localContext,
      indirectReturns := (List.range sig.indirectReturnCount).map
        (fun i => frame.indirectReturns.getD i 0),
      arguments := (List.range sig.argumentCount).map
        (fun i => frame.arguments.getD i 0),
      bindings := if sig.hasBindings then frame.bindings else [],
      witness := if sig.isWitnessMethod then
        some (frame.selfMetadata, frame.selfWitnessTable) else none }
  some (execCallAsync b view
    (if sig.hasErrorResult then some frame.errorAddr else none) m)

theorem lookupMethod_prepared_async (env : RuntimeEnv) (ref : MethodRef)
    (sig : AsyncSig) (frame : AsyncFrame) (pr : List Value)
    (hw : ref.isWitnessMethod = sig.isWitnessMethod) :
    lookupMethod env ref
        { selfWitnessTable :=
            if sig.isWitnessMethod then some frame.selfWitnessTable else none,
          selfMetadata :=
            if sig.isWitnessMethod then some frame.selfMetadata else none,
          errorResult := if sig.hasErrorResult then some frame.errorAddr else none,
          selfValue := frame.localContext,
          indirectReturnSlot := none,
          params := pr } =
      ⟨resolvedPtr env ref frame.localContext frame.selfWitnessTable,
        frame.localContext⟩ := by
  cases hww : ref.isWitnessMethod
  · simp [lookupMethod, resolvedPtr, hww]
  · have hs : sig.isWitnessMethod = true := hw ▸ hww
    simp [lookupMethod, resolvedPtr, hww, hs]

theorem witnessPair_ite (b : Bool) (md wt : Value) (err : Option Value)
    (s : Value) (irs : Option Value) (pr : List Value) :
    witnessPair { selfWitnessTable := if b then some wt else none,
                  selfMetadata := if b then some md else none,
                  errorResult := err, selfValue := s, indirectReturnSlot := irs,
                  params := pr } = if b then some (md, wt) else none := by
  cases b <;> simp [witnessPair]

/-- Claim C1: Forwarding fidelity: for every method reference, calling
convention and dispatch form, invoking the emitted thunk yields the same
observable results and errors as invoking the resolved implementation
directly on the same arguments.  Part one covers the ordinary and
yielding-coroutine conventions over the flat incoming sequence; part two
covers the asynchronous convention over the context frame; both cover
protocol-witness and class-virtual dispatch through `lookupMethod`. -/
theorem thunk_forwarding_fidelity (impl : ImplMap) (aimpl : AsyncImplMap)
    (env : RuntimeEnv) (ref : MethodRef) (sig : SyncSig) (asig : AsyncSig)
    (mem : Mem) (a : SyncCallArgs) (frame : AsyncFrame)
    (hw : ref.isWitnessMethod = sig.isWitnessMethod)
    (haw : ref.isWitnessMethod = asig.isWitnessMethod)
    (hlen : a.indirectResults.length = sig.numIndirectSILResults)
    (hruns : List.Forall₂ runMatches sig.paramDescs a.paramRuns)
    (harity : List.Forall₂
      (fun d run => (decodeParam mem d run).length = ParamDesc.arity d)
      sig.paramDescs a.paramRuns) :
    runThunkSync impl env ref sig mem (encodeSync sig a) =
        runDirectSync (impl (resolvedPtr env ref a.selfV a.selfWT)) sig mem
          (encodeSync sig a) ∧
      runThunkAsync aimpl env ref asig frame mem =
        runDirectAsync
          (aimpl (resolvedPtr env ref frame.localContext frame.selfWitnessTable))
          asig frame mem := by
  constructor
  · have hprep := prepareArguments_sync_order sig mem a hlen hruns
    have hes := forall₂_decode_length mem _ _ harity
    have hsplit := emissionSplit_spec sig a.coroBuffer a.indirectResults
      (List.zipWith (decodeParam mem) sig.paramDescs a.paramRuns) a.extras
      hlen hes
    have hzip := zip_roundtrip mem _ _ hruns
    have hlook := lookupMethod_prepared env ref sig a
      ((if sig.isCoroutine then [a.coroBuffer] else []) ++
        a.indirectResults ++
        (List.zipWith (decodeParam mem) sig.paramDescs a.paramRuns).flatten ++
        a.extras) hw
    unfold runThunkSync runDirectSync
    simp only [hprep, hsplit, hlook, hzip]
  · have hprep := prepareArguments_async_order asig frame
    have hirslen : ((List.range asig.indirectReturnCount).map
        (fun i => frame.indirectReturns.getD i 0)).length =
          asig.indirectReturnCount := by simp
    have hargslen : ((List.range asig.argumentCount).map
        (fun i => frame.arguments.getD i 0)).length = asig.argumentCount := by
      simp
    have hlook := lookupMethod_prepared_async env ref asig frame
      (((List.range asig.indirectReturnCount).map
          (fun i => frame.indirectReturns.getD i 0)) ++
        ((List.range asig.argumentCount).map
          (fun i => frame.arguments.getD i 0)) ++
        (if asig.hasBindings then frame.bindings else [])) haw
    have htake1 : (((List.range asig.indirectReturnCount).map
          (fun i => frame.indirectReturns.getD i 0)) ++
            ((List.range asig.argumentCount).map
              (fun i => frame.arguments.getD i 0)) ++
            (if asig.hasBindings then frame.bindings else [])).take
          asig.indirectReturnCount =
        (List.range asig.indirectReturnCount).map
          (fun i => frame.indirectReturns.getD i 0) := by
      rw [List.append_assoc]; exact List.take_left' hirslen
    have hdrop1 : (((List.range asig.indirectReturnCount).map
          (fun i => frame.indirectReturns.getD i 0)) ++
            ((List.range asig.argumentCount).map
              (fun i => frame.arguments.getD i 0)) ++
            (if asig.hasBindings then frame.bindings else [])).drop
          asig.indirectReturnCount =
        ((List.range asig.argumentCount).map
          (fun i => frame.arguments.getD i 0)) ++
          (if asig.hasBindings then frame.bindings else []) := by
      rw [List.append_assoc]; exact List.drop_left' hirslen
    have htake2 : (((List.range asig.argumentCount).map
          (fun i => frame.arguments.getD i 0)) ++
            (if asig.hasBindings then frame.bindings else [])).take
          asig.argumentCount =
        (List.range asig.argumentCount).map
          (fun i => frame.arguments.getD i 0) :=
      List.take_left' hargslen
    have hdrop2 : (((List.range asig.argumentCount).map
          (fun i => frame.arguments.getD i 0)) ++
            (if asig.hasBindings then frame.bindings else [])).drop
          asig.argumentCount =
        (if asig.hasBindings then frame.bindings else []) :=
      List.drop_left' hargslen
    have hguard : asig.indirectReturnCount + asig.argumentCount ≤
        (((List.range asig.indirectReturnCount).map
            (fun i => frame.indirectReturns.getD i 0)) ++
          ((List.range asig.argumentCount).map
            (fun i => frame.arguments.getD i 0)) ++
          (if asig.hasBindings then frame.bindings else [])).length := by
      simp
    unfold runThunkAsync runDirectAsync
    rw [hprep]
    simp only [hguard, if_true, htake1, hdrop1, htake2, hdrop2, hlook,
      witnessPair_ite]

def refW : MethodRef := ⟨true, false, 3, 5⟩

def implMapW : ImplMap := fun p view => .ok [p + view.receiver] []

def aimplMapW : AsyncImplMap := fun p view => .ok [p + view.receiver] []

def asigW : AsyncSig :=
  { isWitnessMethod := true, hasErrorResult := true,
    indirectReturnCount := 1, argumentCount := 2, hasBindings := true }

def frameW : AsyncFrame :=
  { localContext := 20, selfMetadata := 21, selfWitnessTable := 22,
    errorAddr := 23, indirectReturns := [24], arguments := [25, 26],
    bindings := [27] }

/-- Witness for C1: fidelity at a concrete witness-method signature, for
both the sync and the async convention. -/
theorem thunk_forwarding_fidelity_witness :
    runThunkSync implMapW envW refW sigW memW (encodeSync sigW argsW) =
        runDirectSync (implMapW (resolvedPtr envW refW argsW.selfV argsW.selfWT))
          sigW memW (encodeSync sigW argsW) ∧
      runThunkAsync aimplMapW envW refW asigW frameW memW =
        runDirectAsync
          (aimplMapW (resolvedPtr envW refW frameW.localContext
            frameW.selfWitnessTable))
          asigW frameW memW :=
  thunk_forwarding_fidelity implMapW aimplMapW envW refW sigW asigW memW argsW
    frameW rfl rfl rfl
    (by simp [sigW, argsW, runMatches, indirectSchemaW, direct2SchemaW])
    (by simp [sigW, argsW, memW, decodeParam, ParamDesc.arity,
      indirectSchemaW, direct2SchemaW])

/-- The decoded input the callee receives from a well-formed sync thunk
invocation (the logical arguments of the invocation in question). -/
def syncViewOf (sig : SyncSig) (mem : Mem) (a : SyncCallArgs) : CalleeInput :=
  { receiver := a.selfV,
    coroBuffer := if sig.isCoroutine then some a.coroBuffer else none,
    indirectResultAddrs := a.indirectResults,
    explosions := List.zipWith (decodeParam mem) sig.paramDescs a.paramRuns,
    extras := a.extras,
    witness := if sig.isWitnessMethod then some (a.selfMeta, a.selfWT) else none }

/-- The decoded input the callee receives from an async thunk invocation on
a given context frame. -/
def asyncViewOf (sig : AsyncSig) (frame : AsyncFrame) : AsyncView :=
  { receiver := frame.localContext,
    indirectReturns := (List.range sig.indirectReturnCount).map
      (fun i => frame.indirectReturns.getD i 0),
    arguments := (List.range sig.argumentCount).map
      (fun i => frame.arguments.getD i 0),
    bindings := if sig.hasBindings then frame.bindings else [],
    witness := if sig.isWitnessMethod then
      some (frame.selfMetadata, frame.selfWitnessTable) else none }

/-- On a well-formed incoming sequence, the sync thunk's observable is the
resolved implementation executed at the invocation's decoded view, with the
caller's indirect-return destination and error slot forwarded verbatim. -/
theorem runThunkSync_eq (impl : ImplMap) (env : RuntimeEnv) (ref : MethodRef)
    (sig : SyncSig) (mem : Mem) (a : SyncCallArgs)
    (hw : ref.isWitnessMethod = sig.isWitnessMethod)
    (hlen : a.indirectResults.length = sig.numIndirectSILResults)
    (hruns : List.Forall₂ runMatches sig.paramDescs a.paramRuns)
    (harity : List.Forall₂
      (fun d run => (decodeParam mem d run).length = ParamDesc.arity d)
      sig.paramDescs a.paramRuns) :
    runThunkSync impl env ref sig mem (encodeSync sig a) =
      some (execCall (impl (resolvedPtr env ref a.selfV a.selfWT))
        (syncViewOf sig mem a)
        (if sig.returnIndirect then some a.sretSlot else none)
        (if sig.hasErrorResult then some a.errSlot else none) mem) := by
  have hprep := prepareArguments_sync_order sig mem a hlen hruns
  have hes := forall₂_decode_length mem _ _ harity
  have hsplit := emissionSplit_spec sig a.coroBuffer a.indirectResults
    (List.zipWith (decodeParam mem) sig.paramDescs a.paramRuns) a.extras
    hlen hes
  have hzip := zip_roundtrip mem _ _ hruns
  have hlook := lookupMethod_prepared env ref sig a
    ((if sig.isCoroutine then [a.coroBuffer] else []) ++
      a.indirectResults ++
      (List.zipWith (decodeParam mem) sig.paramDescs a.paramRuns).flatten ++
      a.extras) hw
  unfold runThunkSync
  simp only [hprep, hsplit, hlook, hzip, witnessPair_ite, syncViewOf]

/-- The async thunk's observable is the resolved implementation executed at
the context frame's decoded view, with the frame's error-slot address
forwarded verbatim. -/
theorem runThunkAsync_eq (aimpl : AsyncImplMap) (env : RuntimeEnv)
    (ref : MethodRef) (sig : AsyncSig) (frame : AsyncFrame) (mem : Mem)
    (hw : ref.isWitnessMethod = sig.isWitnessMethod) :
    runThunkAsync aimpl env ref sig frame mem =
      some (execCallAsync
        (aimpl (resolvedPtr env ref frame.localContext frame.selfWitnessTable))
        (asyncViewOf sig frame)
        (if sig.hasErrorResult then some frame.errorAddr else none) mem) := by
  have hprep := prepareArguments_async_order sig frame
  have hirslen : ((List.range sig.indirectReturnCount).map
      (fun i => frame.indirectReturns.getD i 0)).length =
        sig.indirectReturnCount := by simp
  have hargslen : ((List.range sig.argumentCount).map
      (fun i => frame.arguments.getD i 0)).length = sig.argumentCount := by
    simp
  have hlook := lookupMethod_prepared_async env ref sig frame
    (((List.range sig.indirectReturnCount).map
        (fun i => frame.indirectReturns.getD i 0)) ++
      ((List.range sig.argumentCount).map
        (fun i => frame.arguments.getD i 0)) ++
      (if sig.hasBindings then frame.bindings else [])) hw
  have htake1 : (((List.range sig.indirectReturnCount).map
        (fun i => frame.indirectReturns.getD i 0)) ++
          ((List.range sig.argumentCount).map
            (fun i => frame.arguments.getD i 0)) ++
          (if sig.hasBindings then frame.bindings else [])).take
        sig.indirectReturnCount =
      (List.range sig.indirectReturnCount).map
        (fun i => frame.indirectReturns.getD i 0) := by
    rw [List.append_assoc]; exact List.take_left' hirslen
  have hdrop1 : (((List.range sig.indirectReturnCount).map
        (fun i => frame.indirectReturns.getD i 0)) ++
          ((List.range sig.argumentCount).map
            (fun i => frame.arguments.getD i 0)) ++
          (if sig.hasBindings then frame.bindings else [])).drop
        sig.indirectReturnCount =
      ((List.range sig.argumentCount).map
        (fun i => frame.arguments.getD i 0)) ++
        (if sig.hasBindings then frame.bindings else []) := by
    rw [List.append_assoc]; exact List.drop_left' hirslen
  have htake2 : (((List.range sig.argumentCount).map
        (fun i => frame.arguments.getD i 0)) ++
          (if sig.hasBindings then frame.bindings else [])).take
        sig.argumentCount =
      (List.range sig.argumentCount).map
        (fun i => frame.arguments.getD i 0) :=
    List.take_left' hargslen
  have hdrop2 : (((List.range sig.argumentCount).map
        (fun i => frame.arguments.getD i 0)) ++
          (if sig.hasBindings then frame.bindings else [])).drop
        sig.argumentCount =
      (if sig.hasBindings then frame.bindings else []) :=
    List.drop_left' hargslen
  have hguard : sig.indirectReturnCount + sig.argumentCount ≤
      (((List.range sig.indirectReturnCount).map
          (fun i => frame.indirectReturns.getD i 0)) ++
        ((List.range sig.argumentCount).map
          (fun i => frame.arguments.getD i 0)) ++
        (if sig.hasBindings then frame.bindings else [])).length := by
    simp
  unfold runThunkAsync
  rw [hprep]
  simp only [hguard, if_true, htake1, hdrop1, htake2, hdrop2, hlook,
    witnessPair_ite, asyncViewOf]

/-- Claim C8: Error isolation: for every thunk invocation — sync (ordinary
or coroutine) and asynchronous alike — in which the called implementation
raises an error on the invocation's decoded arguments, the error value is
forwarded unmodified through the installed (forwarded) error slot, no scalar
result is produced, and every other address — in particular an
indirect-return destination distinct from the error slot — retains its
original contents, never partially populated. -/
theorem thunk_error_isolation (impl : ImplMap) (aimpl : AsyncImplMap)
    (env : RuntimeEnv) (ref : MethodRef) (sig : SyncSig) (asig : AsyncSig)
    (mem : Mem) (a : SyncCallArgs) (frame : AsyncFrame) (e e' : Value)
    (hw : ref.isWitnessMethod = sig.isWitnessMethod)
    (haw : ref.isWitnessMethod = asig.isWitnessMethod)
    (hlen : a.indirectResults.length = sig.numIndirectSILResults)
    (hruns : List.Forall₂ runMatches sig.paramDescs a.paramRuns)
    (harity : List.Forall₂
      (fun d run => (decodeParam mem d run).length = ParamDesc.arity d)
      sig.paramDescs a.paramRuns)
    (herr : sig.hasErrorResult = true)
    (haerr : asig.hasErrorResult = true)
    (himpl : impl (resolvedPtr env ref a.selfV a.selfWT)
      (syncViewOf sig mem a) = ImplOutcome.err e)
    (haimpl : aimpl (resolvedPtr env ref frame.localContext
      frame.selfWitnessTable) (asyncViewOf asig frame) = ImplOutcome.err e') :
    (runThunkSync impl env ref sig mem (encodeSync sig a) =
        some { scalarResult := none, mem := writeMem mem a.errSlot [e] } ∧
      ∀ addr, addr ≠ a.errSlot →
        writeMem mem a.errSlot [e] addr = mem addr) ∧
      (runThunkAsync aimpl env ref asig frame mem =
        some { scalarResult := none,
               mem := writeMem mem frame.errorAddr [e'] } ∧
      ∀ addr, addr ≠ frame.errorAddr →
        writeMem mem frame.errorAddr [e'] addr = mem addr) := by
  refine ⟨⟨?_, ?_⟩, ?_, ?_⟩
  · rw [runThunkSync_eq impl env ref sig mem a hw hlen hruns harity]
    simp [execCall, himpl, herr]
  · intro addr haddr
    simp [writeMem, haddr]
  · rw [runThunkAsync_eq aimpl env ref asig frame mem haw]
    simp [execCallAsync, haimpl, haerr]
  · intro addr haddr
    simp [writeMem, haddr]

def implErrW : ImplMap := fun _ _ => .err 42

def aimplErrW : AsyncImplMap := fun _ _ => .err 43

/-- Witness for C8: concrete erroring implementations behind the concrete
sync witness-method thunk and the concrete async thunk — the caller's error
slot (addresses 11 and 23 respectively) receives the error, and another
address (the destination 2, respectively the forwarded indirect-return
address 24) is untouched. -/
theorem thunk_error_isolation_witness :
    (runThunkSync implErrW envW refW sigW memW (encodeSync sigW argsW) =
        some { scalarResult := none, mem := writeMem memW 11 [42] } ∧
      writeMem memW 11 [42] 2 = memW 2) ∧
      (runThunkAsync aimplErrW envW refW asigW frameW memW =
        some { scalarResult := none, mem := writeMem memW 23 [43] } ∧
      writeMem memW 23 [43] 24 = memW 24) := by
  have h := thunk_error_isolation implErrW aimplErrW envW refW sigW asigW memW
    argsW frameW 42 43 rfl rfl rfl
    (by simp [sigW, argsW, runMatches, indirectSchemaW, direct2SchemaW])
    (by simp [sigW, argsW, memW, decodeParam, ParamDesc.arity,
      indirectSchemaW, direct2SchemaW])
    rfl rfl rfl rfl
  exact ⟨⟨h.1.1, h.1.2 2 (by decide)⟩, h.2.1, h.2.2 24 (by decide)⟩

/-! ## Emission driver (`IRGenThunk::emit`, lines 283–352) -/

inductive EmitStep where
  | setupAsync
  | asyncFunctionEntry
  | defineAsyncFunctionPointer (size : Nat)
  | prepareArgs
  | call
  | suspendPoint
  | emitToMemory
  | emitToExplosion
  | asyncReturn
  | retVoid
  | retScalar
  | retCoroResult
  deriving DecidableEq, Repr

/-- Modelled from the spec: the lowering of the forwarded call by the
call-emission primitive (`GenCall`, outside the surveyed source).  An
ordinary or coroutine-driving call does not suspend; an asynchronous call
suspends at exactly one point — the forwarded call itself. -/
def callSteps (isAsync : Bool) : List EmitStep :=
  if isAsync then [.call, .suspendPoint] else [.call]

/-- The signature facts `emit` consults. -/
structure EmitSig where
  isAsync : Bool
  isCoroutine : Bool
  returnIndirect : Bool
  resultEmpty : Bool
  layoutSize : Nat

/-- `IRGenThunk::emit` as the ordered sequence of steps it emits: the async
prologue (setup, async function entry, publication of the async function
pointer record carrying the context layout size), argument preparation, the
forwarded call, result emission (to memory when the native return schema is
indirect, otherwise to an explosion), and the convention's return — a
coroutine thunk drives the coroutine to completion as a single ordinary
call and returns its terminal result directly. -/
def emitTrace (sig : EmitSig) : List EmitStep :=
  (if sig.isAsync then
    [.setupAsync, .asyncFunctionEntry,
      .defineAsyncFunctionPointer sig.layoutSize]
   else []) ++
  [.prepareArgs] ++
  (if sig.isCoroutine then
    callSteps false ++ [.retCoroResult]
   else
    callSteps sig.isAsync ++
    (if sig.returnIndirect then [.emitToMemory] else [.emitToExplosion]) ++
    (if sig.isAsync then [.asyncReturn]
     else if sig.resultEmpty then [.retVoid] else [.retScalar]))

/-- Whether a step belongs to the thunk's forwarding body (as opposed to
the async prologue that publishes the function pointer record). -/
def isBody : EmitStep → Bool
  | .setupAsync => false
  | .asyncFunctionEntry => false
  | .defineAsyncFunctionPointer _ => false
  | _ => true

/-- Claim C9: For an asynchronous thunk, emission publishes the constant async
function pointer record carrying the async context layout's size as part of
the prologue: the first three emitted steps are exactly the async setup,
the async function entry, and the record definition with that size — and no
forwarding-body step occurs among them, so the record exists before any of
the body is emitted and independently of it. -/
theorem async_function_pointer_record (sig : EmitSig) (h : sig.isAsync = true) :
    (emitTrace sig).take 3 =
        [.setupAsync, .asyncFunctionEntry,
          .defineAsyncFunctionPointer sig.layoutSize] ∧
      ∀ step ∈ (emitTrace sig).take 3, isBody step = false := by
  cases hc : sig.isCoroutine <;>
    cases hr : sig.returnIndirect <;>
      cases he : sig.resultEmpty <;>
        refine ⟨by simp [emitTrace, h, hc, hr, he, callSteps], ?_⟩ <;>
          · intro step hs
            simp [emitTrace, h, hc, hr, he, callSteps] at hs
            rcases hs with rfl | rfl | rfl <;> rfl

/-- Witness for C9: the concrete async ordinary-return trace. -/
theorem async_function_pointer_record_witness :
    (emitTrace ⟨true, false, false, false, 64⟩).take 3 =
        [.setupAsync, .asyncFunctionEntry,
          .defineAsyncFunctionPointer 64] ∧
      ∀ step ∈ (emitTrace ⟨true, false, false, false, 64⟩).take 3,
        isBody step = false :=
  async_function_pointer_record ⟨true, false, false, false, 64⟩ rfl

def countSuspends (t : List EmitStep) : Nat :=
  (t.filter (fun s => s = .suspendPoint)).length

def countCalls (t : List EmitStep) : Nat :=
  (t.filter (fun s => s = .call)).length

/-- Claim C10: A thunk of Ordinary or YieldingCoroutine convention never
suspends (its trace contains no suspension point), a coroutine thunk drives
the target to completion as a single call whose terminal result is returned
directly, and an Asynchronous thunk suspends at exactly one point — the
forwarded call, which the suspension immediately follows. -/
theorem thunk_suspension_discipline (sig : EmitSig)
    (hexcl : ¬(sig.isAsync = true ∧ sig.isCoroutine = true)) :
    countSuspends (emitTrace sig) = (if sig.isAsync then 1 else 0) ∧
      countCalls (emitTrace sig) = 1 ∧
      (sig.isCoroutine = true →
        (emitTrace sig).getLast? = some .retCoroResult) ∧
      (sig.isAsync = true →
        ∃ i, (emitTrace sig).get? i = some .call ∧
          (emitTrace sig).get? (i + 1) = some .suspendPoint) := by
  cases ha : sig.isAsync <;> cases hc : sig.isCoroutine
  · cases hr : sig.returnIndirect <;> cases he : sig.resultEmpty <;>
      refine ⟨?_, ?_, ?_, ?_⟩ <;>
        simp [emitTrace, callSteps, countSuspends, countCalls, ha, hc, hr, he]
  · cases hr : sig.returnIndirect <;> cases he : sig.resultEmpty <;>
      refine ⟨?_, ?_, ?_, ?_⟩ <;>
        simp [emitTrace, callSteps, countSuspends, countCalls, ha, hc, hr, he]
  · cases hr : sig.returnIndirect <;> cases he : sig.resultEmpty <;>
      refine ⟨?_, ?_, ?_, ?_⟩ <;>
        simp [emitTrace, callSteps, countSuspends, countCalls, ha, hc, hr, he] <;>
          exact ⟨4, rfl, rfl⟩
  · exact absurd ⟨ha, hc⟩ hexcl

/-- Witness for C10: the concrete coroutine trace and the concrete async
trace. -/
theorem thunk_suspension_discipline_witness :
    countSuspends (emitTrace ⟨false, true, false, false, 0⟩) = 0 ∧
      countCalls (emitTrace ⟨true, false, true, false, 64⟩) = 1 := by
  refine ⟨?_, ?_⟩
  · have h := thunk_suspension_discipline ⟨false, true, false, false, 0⟩
      (by simp)
    exact h.1.trans (by decide)
  · exact (thunk_suspension_discipline ⟨true, false, true, false, 64⟩
      (by simp)).2.1

/-! ## Resilient method lookup
(`IRGenModule::emitMethodLookupFunction`, lines 440–518) -/

/-- A class method as the lookup-function generator sees it: its descriptor
symbol (identity only), its statically known implementation, whether it is
overridden within this compilation's visibility, and whether its linkage has
public visibility. -/
structure MethodInfo where
  desc : Nat
  impl : Value
  overridden : Bool
  publicVis : Bool
  deriving DecidableEq, Repr

/-- A class with its methods in vtable (table) order. -/
structure ClassInfo where
  methods : List MethodInfo

/-- The `SwiftClassMethods` pointer-authentication configuration: when
enabled, a loaded implementation is signed with the per-method
discriminator that the method descriptor would carry. -/
structure PtrAuthConfig where
  enabled : Bool
  sign : Value → Nat → Value
  discriminator : Nat → Nat

/-- The implementation value a matching fast-path branch returns: the
statically known implementation, signed with the method's fixed
discriminator when class-method pointer authentication is configured. -/
def signImpl (pa : PtrAuthConfig) (m : MethodInfo) : Value :=
  if pa.enabled then pa.sign m.impl (pa.discriminator m.desc) else m.impl

/-- `LookUpNonoverriddenMethods::noteNonoverriddenMethod` (lines 470–506):
non-public methods are skipped (the lookup function is reachable only for
cross-module `super.` calls); otherwise a descriptor-identity-equality
branch returning the signed static implementation is emitted. -/
def noteNonoverriddenMethod (pa : PtrAuthConfig) (m : MethodInfo) :
    List (Nat × Value) :=
  if !m.publicVis then []
  else [(m.desc, signImpl pa m)]

/-- Modelled from the spec: `ClassMetadataScanner::layout`
(`ClassMetadataVisitor.h`, outside the surveyed source) enumerates the
class's methods in table order and notes each method that is not overridden
within this compilation's visibility boundary to `noteNonoverriddenMethod`. -/
def scanLayout (pa : PtrAuthConfig) : List MethodInfo → List (Nat × Value)
  | [] => []
  | m :: rest =>
      (if m.overridden then [] else noteNonoverriddenMethod pa m) ++
        scanLayout pa rest

/-- Semantics of the emitted chain of conditional branches: the first branch
whose descriptor equals the incoming descriptor returns its implementation
immediately; otherwise control falls through to the fallback. -/
def runBranches (branches : List (Nat × Value)) (fallback : Value)
    (descArg : Nat) : Value :=
  match branches with
  | [] => fallback
  | (d, i) :: rest => if descArg = d then i else runBranches rest fallback descArg

/-- The emitted method lookup function on `(metadata, descriptor)` inputs:
the scanner's fast-path branches, with an unconditional call of the runtime
lookup routine (`getLookUpClassMethodFn`) as the final fallback whose result
is returned. -/
def methodLookupFn (pa : PtrAuthConfig) (c : ClassInfo)
    (slowPath : Value → Nat → Value) (metadata : Value) (descArg : Nat) :
    Value :=
  runBranches (scanLayout pa c.methods) (slowPath metadata descArg) descArg

theorem scanLayout_eq_filterMap (pa : PtrAuthConfig) (ms : List MethodInfo) :
    scanLayout pa ms =
      (ms.filter (fun m => !m.overridden && m.publicVis)).map
        (fun m => (m.desc, signImpl pa m)) := by
  induction ms with
  | nil => rfl
  | cons m rest ih =>
    cases ho : m.overridden <;> cases hp : m.publicVis <;>
      simp [scanLayout, noteNonoverriddenMethod, ho, hp, ih]

theorem runBranches_no_match (branches : List (Nat × Value)) (fallback : Value)
    (descArg : Nat) (h : ∀ b ∈ branches, descArg ≠ b.1) :
    runBranches branches fallback descArg = fallback := by
  induction branches with
  | nil => rfl
  | cons b rest ih =>
    rcases b with ⟨d, i⟩
    have hd : descArg ≠ d := h (d, i) (by simp)
    simp only [runBranches, hd, if_neg, if_false]
    exact ih (fun b hb => h b (by simp [hb]))

theorem runBranches_match (pa : PtrAuthConfig) (ms : List MethodInfo)
    (fallback : Value) (m : MethodInfo) (hm : m ∈ ms)
    (hnov : m.overridden = false) (hpub : m.publicVis = true)
    (huniq : ∀ m' ∈ ms, m'.desc = m.desc → m' = m) :
    runBranches
        ((ms.filter (fun m' => !m'.overridden && m'.publicVis)).map
          (fun m' => (m'.desc, signImpl pa m')))
        fallback m.desc = signImpl pa m := by
  induction ms with
  | nil => simp at hm
  | cons m0 rest ih =>
    have huniq' : ∀ m' ∈ rest, m'.desc = m.desc → m' = m := fun m' h1 h2 =>
      huniq m' (by simp [h1]) h2
    by_cases hf : (!m0.overridden && m0.publicVis) = true
    · rw [List.filter_cons_of_pos (by simpa using hf), List.map_cons]
      by_cases hd : m.desc = m0.desc
      · have : m0 = m := huniq m0 (by simp) hd.symm
        subst this
        simp [runBranches]
      · simp only [runBranches, hd, if_neg, if_false]
        rcases List.mem_cons.mp hm with rfl | hm'
        · exact absurd rfl hd
        · exact ih hm' huniq'
    · rw [List.filter_cons_of_neg (by simpa using hf)]
      rcases List.mem_cons.mp hm with rfl | hm'
      · rw [hnov, hpub] at hf; simp at hf
      · exact ih hm' huniq'

theorem branch_desc_of_mem (pa : PtrAuthConfig) (ms : List MethodInfo)
    (b : Nat × Value) (hb : b ∈ scanLayout pa ms) :
    ∃ m' ∈ ms, m'.overridden = false ∧ m'.publicVis = true ∧ m'.desc = b.1 := by
  rw [scanLayout_eq_filterMap] at hb
  rcases List.mem_map.mp hb with ⟨m', hm', rfl⟩
  rcases List.mem_filter.mp hm' with ⟨hmem, hcond⟩
  simp only [Bool.and_eq_true, Bool.not_eq_true'] at hcond
  exact ⟨m', hmem, hcond.1, hcond.2, rfl⟩

/-- Claim C4: The generated method lookup function consists of a
static descriptor-identity fast path enumerating, in table order, exactly
the methods non-overridden within this compilation's visibility that have
public visibility — each branch returning the statically known
implementation signed with the method's fixed discriminator when pointer
authentication is configured — followed by an unconditional call of the
runtime lookup routine whose result is returned whenever no branch
matches. -/
theorem method_lookup_function_structure (pa : PtrAuthConfig) (c : ClassInfo)
    (slowPath : Value → Nat → Value) (metadata : Value) (descArg : Nat) :
    scanLayout pa c.methods =
        (c.methods.filter (fun m => !m.overridden && m.publicVis)).map
          (fun m => (m.desc, signImpl pa m)) ∧
      ((∀ b ∈ scanLayout pa c.methods, descArg ≠ b.1) →
        methodLookupFn pa c slowPath metadata descArg =
          slowPath metadata descArg) ∧
      (∀ m ∈ c.methods, m.overridden = false → m.publicVis = true →
        (∀ m' ∈ c.methods, m'.desc = m.desc → m' = m) →
        methodLookupFn pa c slowPath metadata m.desc = signImpl pa m) := by
  refine ⟨scanLayout_eq_filterMap pa c.methods, ?_, ?_⟩
  · intro h
    exact runBranches_no_match _ _ _ h
  · intro m hm hnov hpub huniq
    unfold methodLookupFn
    rw [scanLayout_eq_filterMap]
    exact runBranches_match pa c.methods _ m hm hnov hpub huniq

/-- Claim C3: Fast path agrees with the runtime slow path: for a descriptor of
a method non-overridden within this compilation's visibility and of public
visibility, when the slow path would return the (signed) statically known
implementation — the guarantee of the correct-by-contract runtime walk of
the class's actual table — the lookup function returns exactly the slow
path's result; and for a descriptor of any overridden or non-public method,
no fast-path branch descriptor equals it, so the function returns the slow
path's result unchanged. -/
theorem resilient_lookup_refinement (pa : PtrAuthConfig) (c : ClassInfo)
    (slowPath : Value → Nat → Value) (metadata : Value) :
    (∀ m ∈ c.methods, m.overridden = false → m.publicVis = true →
        (∀ m' ∈ c.methods, m'.desc = m.desc → m' = m) →
        slowPath metadata m.desc = signImpl pa m →
        methodLookupFn pa c slowPath metadata m.desc =
          slowPath metadata m.desc) ∧
      (∀ m ∈ c.methods, (m.overridden = true ∨ m.publicVis = false) →
        (∀ m' ∈ c.methods, m'.desc = m.desc → m' = m) →
        (∀ b ∈ scanLayout pa c.methods, m.desc ≠ b.1) ∧
          methodLookupFn pa c slowPath metadata m.desc =
            slowPath metadata m.desc) := by
  constructor
  · intro m hm hnov hpub huniq hslow
    unfold methodLookupFn
    rw [scanLayout_eq_filterMap, hslow]
    exact runBranches_match pa c.methods _ m hm hnov hpub huniq
  · intro m hm hbad huniq
    have hno : ∀ b ∈ scanLayout pa c.methods, m.desc ≠ b.1 := by
      intro b hb heq
      rcases branch_desc_of_mem pa c.methods b hb with ⟨m', hm', hnov', hpub', hd⟩
      have : m' = m := huniq m' hm' (hd.trans heq.symm)
      subst this
      rcases hbad with hbad | hbad
      · rw [hnov'] at hbad; exact Bool.false_ne_true hbad
      · rw [hpub'] at hbad; exact Bool.true_eq_false ▸ (by simp at hbad)
    exact ⟨hno, runBranches_no_match _ _ _ hno⟩

def paW : PtrAuthConfig :=
  { enabled := true, sign := fun v d => v * 10000 + d,
    discriminator := fun desc => desc + 3 }

def classW : ClassInfo :=
  { methods := [⟨1, 100, false, true⟩, ⟨2, 200, true, true⟩,
      ⟨3, 300, false, false⟩] }

def slowW : Value → Nat → Value := fun md d => if d = 1 then 1000004 else md + d

/-- Witness for C4: on a concrete class (one non-overridden public method,
one overridden, one non-public), an unmatched descriptor falls through to
the slow path and the matched descriptor returns the signed static
implementation. -/
theorem method_lookup_function_structure_witness :
    methodLookupFn paW classW slowW 500 7 = slowW 500 7 ∧
      methodLookupFn paW classW slowW 500 1 = signImpl paW ⟨1, 100, false, true⟩ := by
  refine ⟨?_, ?_⟩
  · exact (method_lookup_function_structure paW classW slowW 500 7).2.1 (by decide)
  · exact (method_lookup_function_structure paW classW slowW 500 1).2.2
      ⟨1, 100, false, true⟩ (by decide) rfl rfl (by decide)

/-- Witness for C3: the non-overridden public method's fast path agrees with
the slow path, and the non-public method's descriptor reaches the slow path
alone. -/
theorem resilient_lookup_refinement_witness :
    methodLookupFn paW classW slowW 500 1 = slowW 500 1 ∧
      methodLookupFn paW classW slowW 500 3 = slowW 500 3 := by
  refine ⟨?_, ?_⟩
  · exact (resilient_lookup_refinement paW classW slowW 500).1
      ⟨1, 100, false, true⟩ (by decide) rfl rfl (by decide) (by decide)
  · exact ((resilient_lookup_refinement paW classW slowW 500).2
      ⟨3, 300, false, false⟩ (by decide) (Or.inr rfl) (by decide)).2

end GenThunk
